import Mathlib

/-!
# Verification of the go-paxos node against its specification

Shallow embedding of the per-slot Paxos node implemented in Go
(packages `paxos`, `paxos/proposal`, `paxos/queries`, `paxos/messages`).

The SQLite store is modelled as two association lists keyed by `turn_id`,
mirroring the tables
`proposal(turn_id PRIMARY KEY, pid, seq, value)` and
`learnt(turn_id PRIMARY KEY, value)`.
A `NULL` in the proposal `value` column is `Option.none`.
Store writes are modelled as always succeeding (the Go code surfaces a
write error as a `retry`/`decline`/failure response without changing
state; the claims under study quantify over successful writes).
-/

namespace GoPaxos

/-- `proposal.Proposal` from `paxos/proposal/proposal.go`:
a proposal number `n = (seq, pid)` together with a value `v`
(`""` is the null value, `pid = 0` and `seq = 0` the null number). -/
structure Proposal where
  pid : Int
  seq : Int
  v : String
deriving Repr, DecidableEq

/-- `Proposal.IsGreaterThan`: lexicographic `>` on `(seq, pid)`. -/
def Proposal.IsGreaterThan (p other : Proposal) : Bool :=
  p.seq > other.seq || (p.seq == other.seq && p.pid > other.pid)

/-- `Proposal.IsEqualTo`: equality of numbers `(seq, pid)` (values ignored). -/
def Proposal.IsEqualTo (p other : Proposal) : Bool :=
  p.seq == other.seq && p.pid == other.pid

/-- `Proposal.IsGEThan`: `>=` on proposal numbers. -/
def Proposal.IsGEThan (p other : Proposal) : Bool :=
  p.IsGreaterThan other || p.IsEqualTo other

/-- The null proposal `proposal.Proposal{}`. -/
def nullProposal : Proposal := { pid := 0, seq := 0, v := "" }

/-- One row of the `proposal` table (`value` is nullable). -/
structure ProposalRow where
  turn_id : Int
  pid : Int
  seq : Int
  value : Option String
deriving Repr, DecidableEq

/-- One row of the `learnt` table (`SetLearntValue` never writes NULL). -/
structure LearntRow where
  turn_id : Int
  value : String
deriving Repr, DecidableEq

/-- The durable store: the two SQLite tables, as association lists.
`turn_id` is the primary key of both tables. -/
structure DB where
  proposalTable : List ProposalRow
  learntTable : List LearntRow
deriving Repr, DecidableEq

/-- The row of the `proposal` table selected by
`SELECT ... FROM proposal WHERE turn_id = ?`. -/
def proposalRow (db : DB) (turnID : Int) : Option ProposalRow :=
  db.proposalTable.find? (fun r => r.turn_id == turnID)

/-- `queries.GetProposal`: row lookup for `turn_id`; a missing row yields
the empty proposal and `ok = false`; a NULL `value` reads back as `""`
(`sql.NullString.String`). Rows written by `SetProposal` always have
non-NULL `pid` and `seq`, so `ok` is `true` exactly when the row exists. -/
def GetProposal (db : DB) (turnID : Int) : Proposal × Bool :=
  match proposalRow db turnID with
  | some r => ({ pid := r.pid, seq := r.seq, v := r.value.getD "" }, true)
  | none => (nullProposal, false)

/-- The `DO UPDATE` half of the upsert in `queries.SetProposal`:
* `p.V ≠ ""` and accept request: overwrite `pid`, `seq` and `value`.
* `p.V ≠ ""` and prepare request: overwrite `pid`, `seq`;
  `value := coalesce(value, excluded.value)` keeps a non-NULL stored value.
* `p.V = ""`: update only `pid` and `seq`
  (the empty string is never stored as `value`). -/
def setProposalUpdateRow (p : Proposal) (isAcceptRequest : Bool) (old : ProposalRow) :
    ProposalRow :=
  if p.v ≠ "" then
    if isAcceptRequest then
      { old with pid := p.pid, seq := p.seq, value := some p.v }
    else
      { old with
        pid := p.pid
        seq := p.seq
        value := (match old.value with
          | some x => some x
          | none => some p.v) }
  else
    { old with pid := p.pid, seq := p.seq }

/-- The `INSERT` half of the upsert in `queries.SetProposal`
(a fresh row gets NULL `value` when `p.V = ""`). -/
def setProposalNewRow (turnID : Int) (p : Proposal) : ProposalRow :=
  { turn_id := turnID
    pid := p.pid
    seq := p.seq
    value := if p.v ≠ "" then some p.v else none }

/-- `queries.SetProposal`: upsert on the `proposal` table
(`INSERT ... ON CONFLICT (turn_id) DO UPDATE ...`). -/
def SetProposal (db : DB) (turnID : Int) (p : Proposal) (isAcceptRequest : Bool) : DB :=
  if db.proposalTable.any (fun r => r.turn_id == turnID) then
    { db with proposalTable :=
        db.proposalTable.map (fun r =>
          if r.turn_id == turnID then setProposalUpdateRow p isAcceptRequest r else r) }
  else
    { db with proposalTable := db.proposalTable ++ [setProposalNewRow turnID p] }

/-- `queries.GetLearntValue`: the `value` for `turn_id` in the `learnt`
table, `""` when no row exists. -/
def GetLearntValue (db : DB) (turnID : Int) : String :=
  match db.learntTable.find? (fun r => r.turn_id == turnID) with
  | some r => r.value
  | none => ""

/-- `queries.SetLearntValue`: upsert on the `learnt` table
(`ON CONFLICT (turn_id) DO UPDATE SET value = excluded.value`). -/
def SetLearntValue (db : DB) (turnID : Int) (v : String) : DB :=
  if db.learntTable.any (fun r => r.turn_id == turnID) then
    { db with learntTable :=
        db.learntTable.map (fun r => if r.turn_id == turnID then { r with value := v } else r) }
  else
    { db with learntTable := db.learntTable ++ [{ turn_id := turnID, value := v }] }

/-- `queries.GetLastTurnID`: `SELECT turn_id FROM learnt ORDER BY turn_id DESC`,
first row; `0` when the table is empty. -/
def GetLastTurnID (db : DB) : Int :=
  match db.learntTable.map (fun r => r.turn_id) with
  | [] => 0
  | x :: xs => xs.foldl max x

/-- `queries.GetLearntValuesTurnID`: the set of learnt turn ids
(modelled as the list of keys; the Go map-as-set is queried only
through membership). -/
def GetLearntValuesTurnID (db : DB) : List Int :=
  db.learntTable.map (fun r => r.turn_id)

/-- `messages.LearntWithTid`. -/
structure LearntWithTid where
  turnID : Int
  learnt : String
deriving Repr, DecidableEq

/-- `queries.GetAllLearntValues`: every row of the `learnt` table.
The SQL `ORDER BY turn_id` only affects row order; the sole consumer
modelled here (`ComputeNewValuesResponse`) folds the rows into a map
keyed by `turn_id`, which is insensitive to that order, so the rows are
returned in table order. -/
def GetAllLearntValues (db : DB) : List LearntWithTid :=
  db.learntTable.map (fun r => { turnID := r.turn_id, learnt := r.value })

/-- `messages.Body`. -/
structure Body where
  message : String
  proposal : Proposal
  learnt : String
deriving Repr, DecidableEq

/-- `messages.GenericMessage`. -/
structure GenericMessage where
  turnID : Int
  type : String
  body : Body
deriving Repr, DecidableEq

/-- Result of an acceptor handler: the store afterwards plus the
response message. -/
structure AcceptorEffect where
  db : DB
  response : GenericMessage
deriving Repr, DecidableEq

/-- `paxos.ReceivePrepare` (`acceptor.go`): short-circuit on a learnt
value; otherwise promise iff the store has no valid proposal or the
incoming number is strictly greater, writing the new proposal with
`isAcceptRequest = false`; otherwise retry. The store write is modelled
as succeeding. -/
def ReceivePrepare (db : DB) (prepareRequest : GenericMessage) : AcceptorEffect :=
  let turnID := prepareRequest.turnID
  let newP : Proposal :=
    { pid := prepareRequest.body.proposal.pid
      seq := prepareRequest.body.proposal.seq
      v := prepareRequest.body.proposal.v }
  let currentV := GetLearntValue db turnID
  if currentV ≠ "" then
    { db := db
      response :=
        { turnID := turnID, type := "accept_response"
          body := { message := "already learnt", proposal := nullProposal, learnt := currentV } } }
  else
    let res := GetProposal db turnID
    let oldP := res.1
    let ok := res.2
    let step : DB × String :=
      if !ok || newP.IsGreaterThan oldP then
        (SetProposal db turnID newP false, "promise")
      else
        (db, "retry")
    { db := step.1
      response :=
        { turnID := turnID, type := "accept_response"
          body := { message := step.2, proposal := oldP, learnt := currentV } } }

/-- `paxos.ReceiveAccept` (`acceptor.go`): short-circuit on a learnt
value; otherwise accept iff the store has no valid proposal or the
incoming number is `>=` the stored one, writing the new proposal with
`isAcceptRequest = true`; otherwise decline. The store write is
modelled as succeeding. -/
def ReceiveAccept (db : DB) (acceptRequest : GenericMessage) : AcceptorEffect :=
  let turnID := acceptRequest.turnID
  let newP : Proposal :=
    { pid := acceptRequest.body.proposal.pid
      seq := acceptRequest.body.proposal.seq
      v := acceptRequest.body.proposal.v }
  let currentV := GetLearntValue db turnID
  if currentV ≠ "" then
    { db := db
      response :=
        { turnID := turnID, type := "accept_response"
          body := { message := "already learnt", proposal := nullProposal, learnt := currentV } } }
  else
    let res := GetProposal db turnID
    let oldP := res.1
    let ok := res.2
    let step : DB × String :=
      if !ok || newP.IsGEThan oldP then
        (SetProposal db turnID newP true, "accept")
      else
        (db, "decline")
    { db := step.1
      response :=
        { turnID := turnID, type := "accept_response"
          body := { message := step.2, proposal := oldP, learnt := currentV } } }

/-- `paxos.ResponseHasLearntValue` (`utils.go`). -/
def ResponseHasLearntValue (responseMessage : GenericMessage) : Bool :=
  responseMessage.body.learnt != ""

/-- Result of a learner-layer operation: the store afterwards, the
response, and the `(turnID, v)` flooded by a spawned
`floodLearntValue` / `SendLearn` goroutine, when one is launched. -/
structure LearnEffect where
  db : DB
  response : GenericMessage
  flood : Option (Int × String)
deriving Repr, DecidableEq

/-- `paxos.ReceiveLearn` (`learner.go`): reject when a different
non-empty value is already learnt; otherwise upsert the proposed value
(the store write is modelled as succeeding) and, when the slot was
previously unlearnt, flood the network with the new value. -/
def ReceiveLearn (db : DB) (learnRequest : GenericMessage) : LearnEffect :=
  let turnID := learnRequest.turnID
  let proposedV := learnRequest.body.proposal.v
  let currentV := GetLearntValue db turnID
  let base : GenericMessage :=
    { turnID := turnID, type := "learn_response"
      body := { message := "", proposal := nullProposal, learnt := "" } }
  if proposedV ≠ currentV ∧ currentV ≠ "" then
    { db := db
      response := { base with body :=
        { base.body with
          message := "Trying to learn a different value, please respect the algorithm." } }
      flood := none }
  else
    let db2 := SetLearntValue db turnID proposedV
    if currentV = proposedV then
      { db := db2, response := base, flood := none }
    else
      { db := db2
        response := { base with body :=
          { base.body with message := "value stored", learnt := proposedV } }
        flood := some (turnID, proposedV) }

/-- Result of `learnAndFlood`: the store afterwards plus the spawned
`SendLearn` flood, if any. -/
structure FloodEffect where
  db : DB
  flood : Option (Int × String)
deriving Repr, DecidableEq

/-- `paxos.learnAndFlood` (`proposer.go`): when no value is learnt
locally for the response's turn id, store the response's `learnt` value
and flood it (`go SendLearn`); otherwise change nothing (a mismatch is
only logged). The store write is modelled as succeeding. -/
def learnAndFlood (db : DB) (responseMessage : GenericMessage) : FloodEffect :=
  let turnID := responseMessage.turnID
  let currentV := GetLearntValue db turnID
  let proposedV := responseMessage.body.learnt
  if currentV = "" then
    { db := SetLearntValue db turnID proposedV, flood := some (turnID, proposedV) }
  else
    { db := db, flood := none }

/-- One iteration of the loop in `learnFromDict` (`seeker.go`): write
the proposed value only when it is non-empty and nothing is learnt
locally for that turn id. -/
def learnFromDictStep (db : DB) (entry : Int × String) : DB :=
  let currentV := GetLearntValue db entry.1
  if currentV = "" ∧ entry.2 ≠ "" then SetLearntValue db entry.1 entry.2 else db

/-- `paxos.learnFromDict` (`seeker.go`): learn every entry of the
merged `{turnID: value}` map (modelled as a list of entries; the Go
map's iteration order does not matter to the claims proved below). -/
def learnFromDict (db : DB) (newValuesResponses : List (Int × String)) : DB :=
  newValuesResponses.foldl learnFromDictStep db

/-- The configuration fields of `config.Conf` consumed by the proposer
tallies. -/
structure Conf where
  PID : Int
  V_DEFAULT : String
  QUORUM : Int
  MANUAL_MODE : Bool
deriving Repr, DecidableEq

/-- One slot of the proposer's response buffer: a silent peer (`nil`
bytes after a timeout), a response whose bytes fail `json.Unmarshal`,
or a successfully decoded `GenericMessage`. -/
inductive RawResponse where
  | silent
  | malformed
  | ok (m : GenericMessage)
deriving Repr, DecidableEq

/-- The follow-up request issued (or suggested to the user in manual
mode) by a proposer tally. -/
inductive ProposerAction where
  | noAction
  | sendAccept (turnID seq : Int) (v : String)
  | suggestAccept (turnID seq : Int) (v : String)
  | sendPrepare (turnID seq : Int) (v : String)
  | suggestPrepare (turnID seq : Int) (v : String)
  | sendLearn (turnID : Int) (v : String)
  | suggestLearn (turnID : Int) (v : String)
deriving Repr, DecidableEq

/-- Result of a proposer tally: the store afterwards, whether the tally
returned the unmarshalling error, the follow-up action, and the flood
spawned by `learnAndFlood` on a short-circuit, if any. User-facing
diagnostic strings are not modelled beyond this structure. -/
structure TallyResult where
  db : DB
  err : Bool
  action : ProposerAction
  flood : Option (Int × String)
deriving Repr, DecidableEq

/-- Accumulator of the response loop in `countAgreements`. -/
structure PrepareAcc where
  agreements : Int
  responseCount : Int
  highestPromise : Proposal
  highestRetry : Proposal
deriving Repr, DecidableEq

/-- The decision taken by `countAgreements` after the whole response
buffer has been examined (`proposer.go`, quorum check onward):
on quorum, choose the highest promised value (or `proposedV`, or
`V_DEFAULT`), stamp it with `(seq, own pid)` and send/suggest the
accept; below quorum with a live majority and a non-null highest retry,
send/suggest a prepare with `highestRetry.seq + 1`; otherwise stop. -/
def prepareDecision (conf : Conf) (acc : PrepareAcc) (turnID seq : Int)
    (proposedV : String) : ProposerAction :=
  if acc.agreements ≥ conf.QUORUM then
    let chosenV :=
      if acc.highestPromise.v = "" then
        (if proposedV = "" then conf.V_DEFAULT else proposedV)
      else acc.highestPromise.v
    let final : Proposal := { pid := conf.PID, seq := seq, v := chosenV }
    if !conf.MANUAL_MODE then .sendAccept turnID final.seq final.v
    else .suggestAccept turnID final.seq final.v
  else
    if acc.highestRetry.pid ≠ 0 ∧ acc.responseCount ≥ conf.QUORUM then
      let incrementedSeq := acc.highestRetry.seq + 1
      if !conf.MANUAL_MODE then .sendPrepare turnID incrementedSeq proposedV
      else .suggestPrepare turnID incrementedSeq proposedV
    else .noAction

/-- How one decoded response updates the accumulator of
`countAgreements`: a `promise` bumps the agreement count and the
highest non-empty-valued promise, a `retry` bumps the highest retry,
anything decoded bumps the response count. -/
def prepareAccStep (acc : PrepareAcc) (m : GenericMessage) : PrepareAcc :=
  if m.body.message = "promise" then
    { acc with
      agreements := acc.agreements + 1
      responseCount := acc.responseCount + 1
      highestPromise :=
        if m.body.proposal.IsGreaterThan acc.highestPromise ∧
            m.body.proposal.v ≠ "" then
          m.body.proposal
        else acc.highestPromise }
  else if m.body.message = "retry" then
    { acc with
      responseCount := acc.responseCount + 1
      highestRetry :=
        if m.body.proposal.IsGreaterThan acc.highestRetry then
          m.body.proposal
        else acc.highestRetry }
  else
    { acc with responseCount := acc.responseCount + 1 }

/-- The response loop of `countAgreements` (`proposer.go`): pop each
buffered response; a `nil` buffer slot is skipped; an unmarshalling
failure aborts the tally with an error; a response carrying a learnt
value triggers `learnAndFlood` and aborts the tally; any other decoded
response feeds `prepareAccStep`. After the loop, decide via
`prepareDecision`. -/
def countAgreementsLoop (conf : Conf) (db : DB) (responses : List RawResponse)
    (acc : PrepareAcc) (turnID seq : Int) (proposedV : String) : TallyResult :=
  match responses with
  | [] =>
      { db := db, err := false
        action := prepareDecision conf acc turnID seq proposedV
        flood := none }
  | r :: rest =>
      match r with
      | .silent =>
          countAgreementsLoop conf db rest acc turnID seq proposedV
      | .malformed =>
          { db := db, err := true, action := .noAction, flood := none }
      | .ok m =>
          if ResponseHasLearntValue m then
            let eff := learnAndFlood db m
            { db := eff.db, err := false, action := .noAction, flood := eff.flood }
          else
            countAgreementsLoop conf db rest (prepareAccStep acc m) turnID seq proposedV

/-- `paxos.countAgreements` (`proposer.go`), with an empty accumulator. -/
def countAgreements (conf : Conf) (db : DB) (responses : List RawResponse)
    (turnID seq : Int) (proposedV : String) : TallyResult :=
  countAgreementsLoop conf db responses
    { agreements := 0, responseCount := 0
      highestPromise := nullProposal, highestRetry := nullProposal }
    turnID seq proposedV

/-- Accumulator of the response loop in `countApprovals`. -/
structure AcceptAcc where
  approvals : Int
  responseCount : Int
  highestDecline : Proposal
deriving Repr, DecidableEq

/-- The decision taken by `countApprovals` after the loop: on quorum,
send/suggest the learn; below quorum with a live majority and a
non-null highest decline, send/suggest a prepare with
`highestDecline.seq + 1`; otherwise stop. -/
def acceptDecision (conf : Conf) (acc : AcceptAcc) (turnID : Int)
    (proposedV : String) : ProposerAction :=
  if acc.approvals ≥ conf.QUORUM then
    if !conf.MANUAL_MODE then .sendLearn turnID proposedV
    else .suggestLearn turnID proposedV
  else
    if acc.highestDecline.pid ≠ 0 ∧ acc.responseCount ≥ conf.QUORUM then
      let incrementedSeq := acc.highestDecline.seq + 1
      if !conf.MANUAL_MODE then .sendPrepare turnID incrementedSeq proposedV
      else .suggestPrepare turnID incrementedSeq proposedV
    else .noAction

/-- How one decoded response updates the accumulator of
`countApprovals`: an `accept` bumps the approval count, a `decline`
bumps the highest decline, anything decoded bumps the response count. -/
def acceptAccStep (acc : AcceptAcc) (m : GenericMessage) : AcceptAcc :=
  if m.body.message = "accept" then
    { acc with
      approvals := acc.approvals + 1
      responseCount := acc.responseCount + 1 }
  else if m.body.message = "decline" then
    { acc with
      responseCount := acc.responseCount + 1
      highestDecline :=
        if m.body.proposal.IsGreaterThan acc.highestDecline then
          m.body.proposal
        else acc.highestDecline }
  else
    { acc with responseCount := acc.responseCount + 1 }

/-- The response loop of `countApprovals` (`proposer.go`), mirroring
`countAgreementsLoop` with `accept`/`decline` in place of
`promise`/`retry`. -/
def countApprovalsLoop (conf : Conf) (db : DB) (responses : List RawResponse)
    (acc : AcceptAcc) (turnID : Int) (proposedV : String) : TallyResult :=
  match responses with
  | [] =>
      { db := db, err := false
        action := acceptDecision conf acc turnID proposedV
        flood := none }
  | r :: rest =>
      match r with
      | .silent =>
          countApprovalsLoop conf db rest acc turnID proposedV
      | .malformed =>
          { db := db, err := true, action := .noAction, flood := none }
      | .ok m =>
          if ResponseHasLearntValue m then
            let eff := learnAndFlood db m
            { db := eff.db, err := false, action := .noAction, flood := eff.flood }
          else
            countApprovalsLoop conf db rest (acceptAccStep acc m) turnID proposedV

/-- `paxos.countApprovals` (`proposer.go`), with an empty accumulator. -/
def countApprovals (conf : Conf) (db : DB) (responses : List RawResponse)
    (turnID : Int) (proposedV : String) : TallyResult :=
  countApprovalsLoop conf db responses
    { approvals := 0, responseCount := 0, highestDecline := nullProposal }
    turnID proposedV

/-- The accept request broadcast by `SendAccept` (`proposer.go`): the
proposal carries the node's own pid and the given `seq` and `v`. -/
def acceptRequestMessage (conf : Conf) (turnID seq : Int) (v : String) : GenericMessage :=
  { turnID := turnID, type := "accept_request"
    body :=
      { message := "sending accept request"
        proposal := { pid := conf.PID, seq := seq, v := v }
        learnt := "" } }

/-- `messages.NewValuesRequest`. -/
structure NewValuesRequest where
  missing : List Int
  last : Int
deriving Repr, DecidableEq

/-- Insertion into a Go `map[int]string` (association-list model:
overwrite on an existing key, append otherwise). -/
def mapInsert (m : List (Int × String)) (k : Int) (v : String) : List (Int × String) :=
  if m.any (fun e => e.1 == k) then
    m.map (fun e => if e.1 == k then (k, v) else e)
  else m ++ [(k, v)]

/-- Lookup in the association-list model of `map[int]string`. -/
def mapLookup (m : List (Int × String)) (k : Int) : Option String :=
  (m.find? (fun e => e.1 == k)).map (fun e => e.2)

/-- `paxos.ComputeNewValuesResponse` (`seeker.go`): when ahead of the
requester, fold into `toLearn` every local learnt entry whose turn id
exceeds the requester's `last`; then, when `last ≠ 0`, add every
requested missing turn id with a non-empty local learnt value not
beyond the local horizon. -/
def ComputeNewValuesResponse (db : DB) (newValuesRequest : NewValuesRequest) :
    List (Int × String) :=
  let myLast := GetLastTurnID db
  let toLearn0 : List (Int × String) := []
  let toLearn1 :=
    if myLast > newValuesRequest.last then
      (GetAllLearntValues db).foldl
        (fun m e => if e.turnID > newValuesRequest.last then mapInsert m e.turnID e.learnt else m)
        toLearn0
    else toLearn0
  if newValuesRequest.last ≠ 0 then
    newValuesRequest.missing.foldl
      (fun m turnID =>
        if turnID ≤ myLast ∧ GetLearntValue db turnID ≠ "" then
          mapInsert m turnID (GetLearntValue db turnID)
        else m)
      toLearn1
  else toLearn1

/-- Whether a buffered response decodes to a `promise` message
(the responses `countAgreements` counts as agreements). -/
def isPromise : RawResponse → Bool
  | RawResponse.ok m => m.body.message == "promise"
  | _ => false

/-- The number of `promise` responses in a buffer (the spec's
"number of promise responses"). -/
def promiseCount (responses : List RawResponse) : Int :=
  ((responses.filter isPromise).length : Int)

/-- The accumulator of `countAgreements` after the whole response
buffer has been folded (silent slots skipped, decoded messages fed to
`prepareAccStep`). -/
def prepareFold (acc : PrepareAcc) (responses : List RawResponse) : PrepareAcc :=
  responses.foldl
    (fun a r => match r with
      | RawResponse.ok m => prepareAccStep a m
      | _ => a) acc

/-!
## Example fixtures used by the witnesses
-/

/-- A request message carrying proposal `(pid, seq, v)` for slot `t`. -/
def exReq (t pid seq : Int) (v : String) : GenericMessage :=
  { turnID := t, type := "request"
    body :=
      { message := "sending request"
        proposal := { pid := pid, seq := seq, v := v }
        learnt := "" } }

/-- An empty store. -/
def exEmptyDB : DB := { proposalTable := [], learntTable := [] }

/-- A store that has learnt `"q"` for slot 1. -/
def exLearntDB : DB := { proposalTable := [], learntTable := [{ turn_id := 1, value := "q" }] }

/-- A store with an accepted proposal `(pid 1, seq 1, v "x")` for slot 1. -/
def exPropDB : DB :=
  { proposalTable := [{ turn_id := 1, pid := 1, seq := 1, value := some "x" }]
    learntTable := [] }

/-- A configuration for the concrete tally runs below. -/
def exConf : Conf := { PID := 1, V_DEFAULT := "d", QUORUM := 2, MANUAL_MODE := false }

/-- A decoded `promise` response carrying no learnt value. -/
def exPromise : GenericMessage :=
  { turnID := 1, type := "accept_response"
    body :=
      { message := "promise"
        proposal := { pid := 1, seq := 1, v := "" }
        learnt := "" } }

/-- A store holding learnt values for slots 1 and 3. -/
def exSeekDB : DB :=
  { proposalTable := []
    learntTable := [{ turn_id := 1, value := "a" }, { turn_id := 3, value := "b" }] }


/-!
## Store lemmas
-/

theorem find?_map_learnt_self (l : List LearntRow) (t : Int) (v : String) :
    (l.map (fun r => if r.turn_id == t then { r with value := v } else r)).find?
        (fun r => r.turn_id == t)
      = (l.find? (fun r => r.turn_id == t)).map (fun r => { r with value := v }) := by
  rw [List.find?_map]
  have hp : ((fun r : LearntRow => r.turn_id == t) ∘
      fun r => if r.turn_id == t then { r with value := v } else r)
      = (fun r : LearntRow => r.turn_id == t) := by
    funext r
    by_cases h : r.turn_id = t <;> simp [h]
  rw [hp]
  rcases hf : l.find? (fun r => r.turn_id == t) with _ | r
  · rw [hf]
    rfl
  · rw [hf]
    have hr := List.find?_some hf
    simp only [beq_iff_eq] at hr
    simp [hr]

theorem find?_map_learnt_other (l : List LearntRow) (t t' : Int) (v : String)
    (hne : t' ≠ t) :
    (l.map (fun r => if r.turn_id == t then { r with value := v } else r)).find?
        (fun r => r.turn_id == t')
      = l.find? (fun r => r.turn_id == t') := by
  rw [List.find?_map]
  have hp : ((fun r : LearntRow => r.turn_id == t') ∘
      fun r => if r.turn_id == t then { r with value := v } else r)
      = (fun r : LearntRow => r.turn_id == t') := by
    funext r
    by_cases h : r.turn_id = t <;> simp [h]
  rw [hp]
  rcases hf : l.find? (fun r => r.turn_id == t') with _ | r
  · rw [hf]
    rfl
  · rw [hf]
    have hr := List.find?_some hf
    simp only [beq_iff_eq] at hr
    have hnt : ¬ r.turn_id = t := by omega
    simp [hnt]

theorem learnt_find?_eq_none_of_not_any (l : List LearntRow) (t : Int)
    (h : l.any (fun r => r.turn_id == t) = false) :
    l.find? (fun r => r.turn_id == t) = none := by
  rw [List.find?_eq_none]
  intro x hx
  have := List.any_eq_false.mp h x hx
  simpa using this

theorem GetLearntValue_SetLearntValue_self (db : DB) (t : Int) (v : String) :
    GetLearntValue (SetLearntValue db t v) t = v := by
  by_cases h : db.learntTable.any (fun r => r.turn_id == t) = true
  · simp only [GetLearntValue, SetLearntValue, if_pos h]
    rw [find?_map_learnt_self]
    rcases hf : db.learntTable.find? (fun r => r.turn_id == t) with _ | r
    · exfalso
      have hs : (db.learntTable.find? (fun r => r.turn_id == t)).isSome = true :=
        List.find?_isSome.mpr (by simpa using List.any_eq_true.mp h)
      rw [hf] at hs
      simp at hs
    · rw [hf]
      rfl
  · have h2 : db.learntTable.any (fun r => r.turn_id == t) = false := by
      simpa using h
    simp only [GetLearntValue, SetLearntValue, h2, Bool.false_eq_true, if_false]
    rw [List.find?_append, learnt_find?_eq_none_of_not_any _ _ h2]
    simp [List.find?]

theorem GetLearntValue_SetLearntValue_other (db : DB) (t t' : Int) (v : String)
    (hne : t' ≠ t) :
    GetLearntValue (SetLearntValue db t v) t' = GetLearntValue db t' := by
  by_cases h : db.learntTable.any (fun r => r.turn_id == t) = true
  · simp only [GetLearntValue, SetLearntValue, if_pos h]
    rw [find?_map_learnt_other _ _ _ _ hne]
  · have h2 : db.learntTable.any (fun r => r.turn_id == t) = false := by
      simpa using h
    simp only [GetLearntValue, SetLearntValue, h2, Bool.false_eq_true, if_false]
    rw [List.find?_append]
    have hne2 : (t == t') = false := by
      simp only [beq_eq_false_iff_ne, ne_eq]
      omega
    have hone : ([({ turn_id := t, value := v } : LearntRow)].find?
        (fun r => r.turn_id == t')) = none := by
      simp [List.find?, hne2]
    rw [hone]
    cases db.learntTable.find? (fun r => r.turn_id == t') <;> rfl

theorem setProposalUpdateRow_turn_id (p : Proposal) (b : Bool) (old : ProposalRow) :
    (setProposalUpdateRow p b old).turn_id = old.turn_id := by
  unfold setProposalUpdateRow
  by_cases h : p.v = "" <;> cases b <;> simp [h]

theorem setProposalUpdateRow_pid (p : Proposal) (b : Bool) (old : ProposalRow) :
    (setProposalUpdateRow p b old).pid = p.pid := by
  unfold setProposalUpdateRow
  by_cases h : p.v = "" <;> cases b <;> simp [h]

theorem setProposalUpdateRow_seq (p : Proposal) (b : Bool) (old : ProposalRow) :
    (setProposalUpdateRow p b old).seq = p.seq := by
  unfold setProposalUpdateRow
  by_cases h : p.v = "" <;> cases b <;> simp [h]

theorem proposal_find?_eq_none_of_not_any (l : List ProposalRow) (t : Int)
    (h : l.any (fun r => r.turn_id == t) = false) :
    l.find? (fun r => r.turn_id == t) = none := by
  rw [List.find?_eq_none]
  intro x hx
  have := List.any_eq_false.mp h x hx
  simpa using this

theorem proposalRow_SetProposal_self (db : DB) (t : Int) (p : Proposal) (b : Bool) :
    proposalRow (SetProposal db t p b) t
      = some (match proposalRow db t with
          | some old => setProposalUpdateRow p b old
          | none => setProposalNewRow t p) := by
  by_cases h : db.proposalTable.any (fun r => r.turn_id == t) = true
  · simp only [proposalRow, SetProposal, if_pos h]
    rw [List.find?_map]
    have hp : ((fun r : ProposalRow => r.turn_id == t) ∘
        fun r => if r.turn_id == t then setProposalUpdateRow p b r else r)
        = (fun r : ProposalRow => r.turn_id == t) := by
      funext r
      by_cases hr : r.turn_id = t <;> simp [hr, setProposalUpdateRow_turn_id]
    rw [hp]
    rcases hf : db.proposalTable.find? (fun r => r.turn_id == t) with _ | r
    · exfalso
      have hs : (db.proposalTable.find? (fun r => r.turn_id == t)).isSome = true :=
        List.find?_isSome.mpr (by simpa using List.any_eq_true.mp h)
      rw [hf] at hs
      simp at hs
    · rw [hf]
      have hr := List.find?_some hf
      simp only [beq_iff_eq] at hr
      simp [hr]
  · have h2 : db.proposalTable.any (fun r => r.turn_id == t) = false := by
      simpa using h
    simp only [proposalRow, SetProposal, h2, Bool.false_eq_true, if_false]
    rw [List.find?_append, proposal_find?_eq_none_of_not_any _ _ h2]
    simp [List.find?, setProposalNewRow]

theorem proposalRow_SetProposal_other (db : DB) (t t' : Int) (p : Proposal) (b : Bool)
    (hne : t' ≠ t) :
    proposalRow (SetProposal db t p b) t' = proposalRow db t' := by
  by_cases h : db.proposalTable.any (fun r => r.turn_id == t) = true
  · simp only [proposalRow, SetProposal, if_pos h]
    rw [List.find?_map]
    have hp : ((fun r : ProposalRow => r.turn_id == t') ∘
        fun r => if r.turn_id == t then setProposalUpdateRow p b r else r)
        = (fun r : ProposalRow => r.turn_id == t') := by
      funext r
      by_cases hr : r.turn_id = t <;> simp [hr, setProposalUpdateRow_turn_id]
    rw [hp]
    rcases hf : db.proposalTable.find? (fun r => r.turn_id == t') with _ | r
    · rw [hf]
      rfl
    · rw [hf]
      have hr := List.find?_some hf
      simp only [beq_iff_eq] at hr
      have hnt : ¬ r.turn_id = t := by omega
      simp [hnt]
  · have h2 : db.proposalTable.any (fun r => r.turn_id == t) = false := by
      simpa using h
    simp only [proposalRow, SetProposal, h2, Bool.false_eq_true, if_false]
    rw [List.find?_append]
    have hne2 : (t == t') = false := by
      simp only [beq_eq_false_iff_ne, ne_eq]
      omega
    have hone : ([setProposalNewRow t p].find? (fun r => r.turn_id == t')) = none := by
      simp [List.find?, setProposalNewRow, hne2]
    rw [hone]
    cases db.proposalTable.find? (fun r => r.turn_id == t') <;> rfl

theorem SetProposal_learntTable (db : DB) (t : Int) (p : Proposal) (b : Bool) :
    (SetProposal db t p b).learntTable = db.learntTable := by
  unfold SetProposal
  split <;> rfl

theorem SetLearntValue_proposalTable (db : DB) (t : Int) (v : String) :
    (SetLearntValue db t v).proposalTable = db.proposalTable := by
  unfold SetLearntValue
  split <;> rfl

theorem GetLearntValue_SetProposal (db : DB) (t t' : Int) (p : Proposal) (b : Bool) :
    GetLearntValue (SetProposal db t p b) t' = GetLearntValue db t' := by
  unfold GetLearntValue
  rw [SetProposal_learntTable]

theorem proposalRow_SetLearntValue (db : DB) (t t' : Int) (v : String) :
    proposalRow (SetLearntValue db t v) t' = proposalRow db t' := by
  unfold proposalRow
  rw [SetLearntValue_proposalTable]

theorem GetProposal_SetProposal_self (db : DB) (t : Int) (p : Proposal) (b : Bool) :
    (GetProposal (SetProposal db t p b) t).2 = true ∧
    (GetProposal (SetProposal db t p b) t).1.pid = p.pid ∧
    (GetProposal (SetProposal db t p b) t).1.seq = p.seq := by
  unfold GetProposal
  rw [proposalRow_SetProposal_self]
  rcases proposalRow db t with _ | old
  · simp [setProposalNewRow]
  · simp [setProposalUpdateRow_pid, setProposalUpdateRow_seq]

/-!
## Proposal-order lemmas
-/

theorem IsGreaterThan_iff (p q : Proposal) :
    p.IsGreaterThan q = true ↔ (q.seq < p.seq ∨ (p.seq = q.seq ∧ q.pid < p.pid)) := by
  simp [Proposal.IsGreaterThan]

theorem IsGEThan_iff (p q : Proposal) :
    p.IsGEThan q = true ↔
      (q.seq < p.seq ∨ (p.seq = q.seq ∧ q.pid < p.pid) ∨ (p.seq = q.seq ∧ p.pid = q.pid)) := by
  simp [Proposal.IsGEThan, Proposal.IsGreaterThan, Proposal.IsEqualTo]
  omega

/-!
## Acceptor handler lemmas
-/

theorem ReceivePrepare_learnt (db : DB) (req : GenericMessage)
    (h : GetLearntValue db req.turnID ≠ "") :
    ReceivePrepare db req =
      { db := db
        response :=
          { turnID := req.turnID, type := "accept_response"
            body :=
              { message := "already learnt", proposal := nullProposal
                learnt := GetLearntValue db req.turnID } } } := by
  unfold ReceivePrepare
  rw [if_pos h]

theorem ReceiveAccept_learnt (db : DB) (req : GenericMessage)
    (h : GetLearntValue db req.turnID ≠ "") :
    ReceiveAccept db req =
      { db := db
        response :=
          { turnID := req.turnID, type := "accept_response"
            body :=
              { message := "already learnt", proposal := nullProposal
                learnt := GetLearntValue db req.turnID } } } := by
  unfold ReceiveAccept
  rw [if_pos h]

theorem ReceivePrepare_not_learnt (db : DB) (req : GenericMessage)
    (hl : GetLearntValue db req.turnID = "") :
    ReceivePrepare db req =
      { db := if (GetProposal db req.turnID).2 = false ∨
              req.body.proposal.IsGreaterThan (GetProposal db req.turnID).1 = true
            then SetProposal db req.turnID req.body.proposal false else db
        response :=
          { turnID := req.turnID, type := "accept_response"
            body :=
              { message := if (GetProposal db req.turnID).2 = false ∨
                    req.body.proposal.IsGreaterThan (GetProposal db req.turnID).1 = true
                  then "promise" else "retry"
                proposal := (GetProposal db req.turnID).1
                learnt := "" } } } := by
  unfold ReceivePrepare
  rw [if_neg (by simp [hl])]
  by_cases hc : (GetProposal db req.turnID).2 = false ∨
      req.body.proposal.IsGreaterThan (GetProposal db req.turnID).1 = true
  · have hb : (!(GetProposal db req.turnID).2 ||
        req.body.proposal.IsGreaterThan (GetProposal db req.turnID).1) = true := by
      rcases hc with h | h <;> simp [h]
    simp [hb, hc, hl]
  · push_neg at hc
    obtain ⟨hA, hB⟩ := hc
    have hA2 : (GetProposal db req.turnID).2 = true := by
      cases hx : (GetProposal db req.turnID).2
      · exact absurd hx hA
      · rfl
    have hB2 : req.body.proposal.IsGreaterThan (GetProposal db req.turnID).1 = false := by
      cases hx : req.body.proposal.IsGreaterThan (GetProposal db req.turnID).1
      · rfl
      · exact absurd hx hB
    simp [hA2, hB2, hl]

theorem ReceiveAccept_not_learnt (db : DB) (req : GenericMessage)
    (hl : GetLearntValue db req.turnID = "") :
    ReceiveAccept db req =
      { db := if (GetProposal db req.turnID).2 = false ∨
              req.body.proposal.IsGEThan (GetProposal db req.turnID).1 = true
            then SetProposal db req.turnID req.body.proposal true else db
        response :=
          { turnID := req.turnID, type := "accept_response"
            body :=
              { message := if (GetProposal db req.turnID).2 = false ∨
                    req.body.proposal.IsGEThan (GetProposal db req.turnID).1 = true
                  then "accept" else "decline"
                proposal := (GetProposal db req.turnID).1
                learnt := "" } } } := by
  unfold ReceiveAccept
  rw [if_neg (by simp [hl])]
  by_cases hc : (GetProposal db req.turnID).2 = false ∨
      req.body.proposal.IsGEThan (GetProposal db req.turnID).1 = true
  · have hb : (!(GetProposal db req.turnID).2 ||
        req.body.proposal.IsGEThan (GetProposal db req.turnID).1) = true := by
      rcases hc with h | h <;> simp [h]
    simp [hb, hc, hl]
  · push_neg at hc
    obtain ⟨hA, hB⟩ := hc
    have hA2 : (GetProposal db req.turnID).2 = true := by
      cases hx : (GetProposal db req.turnID).2
      · exact absurd hx hA
      · rfl
    have hB2 : req.body.proposal.IsGEThan (GetProposal db req.turnID).1 = false := by
      cases hx : req.body.proposal.IsGEThan (GetProposal db req.turnID).1
      · rfl
      · exact absurd hx hB
    simp [hA2, hB2, hl]

theorem IsGEThan_refl (p : Proposal) : p.IsGEThan p = true := by
  rw [IsGEThan_iff]
  right; right
  exact ⟨rfl, rfl⟩

theorem GetProposal_SetProposal_other (db : DB) (t t' : Int) (p : Proposal) (b : Bool)
    (hne : t' ≠ t) :
    GetProposal (SetProposal db t p b) t' = GetProposal db t' := by
  unfold GetProposal
  rw [proposalRow_SetProposal_other db t t' p b hne]

/-!
## Claim theorems
-/

/-- **C6.** For a slot with a non-empty learnt value, both `ReceivePrepare`
and `ReceiveAccept` answer `already learnt` carrying the stored learnt
value and the null proposal, and change neither table. -/
theorem already_learnt_short_circuit (db : DB) (req : GenericMessage)
    (h : GetLearntValue db req.turnID ≠ "") :
    (ReceivePrepare db req).db = db ∧
    (ReceivePrepare db req).response.body.message = "already learnt" ∧
    (ReceivePrepare db req).response.body.learnt = GetLearntValue db req.turnID ∧
    (ReceivePrepare db req).response.body.proposal = nullProposal ∧
    (ReceiveAccept db req).db = db ∧
    (ReceiveAccept db req).response.body.message = "already learnt" ∧
    (ReceiveAccept db req).response.body.learnt = GetLearntValue db req.turnID ∧
    (ReceiveAccept db req).response.body.proposal = nullProposal := by
  rw [ReceivePrepare_learnt db req h, ReceiveAccept_learnt db req h]
  exact ⟨rfl, rfl, rfl, rfl, rfl, rfl, rfl, rfl⟩

theorem already_learnt_short_circuit_witness :
    GetLearntValue exLearntDB 1 ≠ "" ∧
    (ReceivePrepare exLearntDB (exReq 1 2 5 "y")).db = exLearntDB ∧
    (ReceivePrepare exLearntDB (exReq 1 2 5 "y")).response.body.message = "already learnt" ∧
    (ReceivePrepare exLearntDB (exReq 1 2 5 "y")).response.body.learnt = "q" := by
  have h := already_learnt_short_circuit exLearntDB (exReq 1 2 5 "y") (by decide)
  exact ⟨by decide, h.1, h.2.1, by rw [h.2.2.1]; decide⟩

/-- **C1.** With no learnt value for the slot (and store writes
succeeding), `ReceivePrepare` promises exactly when the incoming number
is strictly greater than the stored one or no valid proposal is stored,
answering `retry` otherwise; `ReceiveAccept` accepts exactly when the
incoming number is greater or equal (or no valid proposal is stored),
answering `decline` otherwise; and re-sending the accept that was just
accepted is accepted again. -/
theorem acceptor_response_conditions (db : DB) (req : GenericMessage)
    (hl : GetLearntValue db req.turnID = "") :
    ((ReceivePrepare db req).response.body.message =
        if (GetProposal db req.turnID).2 = false ∨
            req.body.proposal.IsGreaterThan (GetProposal db req.turnID).1 = true
        then "promise" else "retry") ∧
    ((ReceiveAccept db req).response.body.message =
        if (GetProposal db req.turnID).2 = false ∨
            req.body.proposal.IsGEThan (GetProposal db req.turnID).1 = true
        then "accept" else "decline") ∧
    ((ReceiveAccept db req).response.body.message = "accept" →
      (ReceiveAccept (ReceiveAccept db req).db req).response.body.message = "accept") := by
  refine ⟨?_, ?_, ?_⟩
  · rw [ReceivePrepare_not_learnt db req hl]
  · rw [ReceiveAccept_not_learnt db req hl]
  · intro hacc
    by_cases hc : (GetProposal db req.turnID).2 = false ∨
        req.body.proposal.IsGEThan (GetProposal db req.turnID).1 = true
    · have hdb : (ReceiveAccept db req).db =
          SetProposal db req.turnID req.body.proposal true := by
        rw [ReceiveAccept_not_learnt db req hl]
        dsimp only
        rw [if_pos hc]
      rw [hdb]
      have hl2 : GetLearntValue (SetProposal db req.turnID req.body.proposal true)
          req.turnID = "" := by
        rw [GetLearntValue_SetProposal]
        exact hl
      rw [ReceiveAccept_not_learnt _ req hl2]
      have hself := GetProposal_SetProposal_self db req.turnID req.body.proposal true
      have hge : req.body.proposal.IsGEThan
          (GetProposal (SetProposal db req.turnID req.body.proposal true) req.turnID).1
          = true := by
        rw [IsGEThan_iff]
        right; right
        exact ⟨hself.2.2.symm, hself.2.1.symm⟩
      dsimp only
      rw [if_pos (Or.inr hge)]
    · rw [ReceiveAccept_not_learnt db req hl] at hacc
      dsimp only at hacc
      rw [if_neg hc] at hacc
      simp at hacc

theorem acceptor_response_conditions_witness :
    GetLearntValue exEmptyDB 1 = "" ∧
    (ReceivePrepare exEmptyDB (exReq 1 1 1 "x")).response.body.message = "promise" ∧
    (ReceiveAccept exEmptyDB (exReq 1 1 1 "x")).response.body.message = "accept" ∧
    (ReceiveAccept (ReceiveAccept exEmptyDB (exReq 1 1 1 "x")).db
      (exReq 1 1 1 "x")).response.body.message = "accept" := by
  have h := acceptor_response_conditions exEmptyDB (exReq 1 1 1 "x") rfl
  refine ⟨rfl, ?_, ?_, ?_⟩
  · rw [h.1]
    decide
  · rw [h.2.1]
    decide
  · exact h.2.2 (by rw [h.2.1]; decide)

/-- **C5.** Both acceptor handlers leave the stored proposal number for
every slot that already has a valid stored proposal greater than or
equal to what it was before the call (the stored number is monotonically
non-decreasing). -/
theorem acceptor_number_monotonic (db : DB) (req : GenericMessage) (t : Int)
    (h : (GetProposal db t).2 = true) :
    ((GetProposal (ReceivePrepare db req).db t).1.IsGEThan (GetProposal db t).1 = true ∧
     (GetProposal (ReceivePrepare db req).db t).2 = true) ∧
    ((GetProposal (ReceiveAccept db req).db t).1.IsGEThan (GetProposal db t).1 = true ∧
     (GetProposal (ReceiveAccept db req).db t).2 = true) := by
  constructor
  · by_cases hl : GetLearntValue db req.turnID = ""
    · rw [ReceivePrepare_not_learnt db req hl]
      dsimp only
      by_cases hc : (GetProposal db req.turnID).2 = false ∨
          req.body.proposal.IsGreaterThan (GetProposal db req.turnID).1 = true
      · rw [if_pos hc]
        by_cases ht : t = req.turnID
        · subst ht
          have hself := GetProposal_SetProposal_self db req.turnID req.body.proposal false
          refine ⟨?_, hself.1⟩
          rcases hc with hA | hB
          · rw [hA] at h
            simp at h
          · rw [IsGEThan_iff]
            rw [IsGreaterThan_iff] at hB
            rcases hself with ⟨_, h2, h3⟩
            omega
        · rw [GetProposal_SetProposal_other db req.turnID t req.body.proposal false ht]
          exact ⟨IsGEThan_refl _, h⟩
      · rw [if_neg hc]
        exact ⟨IsGEThan_refl _, h⟩
    · rw [ReceivePrepare_learnt db req hl]
      exact ⟨IsGEThan_refl _, h⟩
  · by_cases hl : GetLearntValue db req.turnID = ""
    · rw [ReceiveAccept_not_learnt db req hl]
      dsimp only
      by_cases hc : (GetProposal db req.turnID).2 = false ∨
          req.body.proposal.IsGEThan (GetProposal db req.turnID).1 = true
      · rw [if_pos hc]
        by_cases ht : t = req.turnID
        · subst ht
          have hself := GetProposal_SetProposal_self db req.turnID req.body.proposal true
          refine ⟨?_, hself.1⟩
          rcases hc with hA | hB
          · rw [hA] at h
            simp at h
          · rw [IsGEThan_iff]
            rw [IsGEThan_iff] at hB
            rcases hself with ⟨_, h2, h3⟩
            omega
        · rw [GetProposal_SetProposal_other db req.turnID t req.body.proposal true ht]
          exact ⟨IsGEThan_refl _, h⟩
      · rw [if_neg hc]
        exact ⟨IsGEThan_refl _, h⟩
    · rw [ReceiveAccept_learnt db req hl]
      exact ⟨IsGEThan_refl _, h⟩

theorem acceptor_number_monotonic_witness :
    (GetProposal exPropDB 1).2 = true ∧
    (GetProposal (ReceivePrepare exPropDB (exReq 1 2 5 "y")).db 1).1.IsGEThan
      (GetProposal exPropDB 1).1 = true ∧
    (GetProposal (ReceiveAccept exPropDB (exReq 1 2 5 "y")).db 1).1.IsGEThan
      (GetProposal exPropDB 1).1 = true := by
  have h := acceptor_number_monotonic exPropDB (exReq 1 2 5 "y") 1 (by decide)
  exact ⟨by decide, h.1.1, h.2.1⟩

/-!
## Learner-layer lemmas
-/

theorem learnFromDictStep_preserves (db : DB) (e : Int × String) (t : Int)
    (h : GetLearntValue db t ≠ "") :
    GetLearntValue (learnFromDictStep db e) t = GetLearntValue db t := by
  unfold learnFromDictStep
  by_cases he : GetLearntValue db e.1 = "" ∧ e.2 ≠ ""
  · rw [if_pos he]
    have hne : t ≠ e.1 := by
      intro hEq
      rw [hEq] at h
      exact h he.1
    exact GetLearntValue_SetLearntValue_other db e.1 t e.2 hne
  · rw [if_neg he]

theorem learnFromDict_preserves (l : List (Int × String)) (db : DB) (t : Int)
    (h : GetLearntValue db t ≠ "") :
    GetLearntValue (learnFromDict db l) t = GetLearntValue db t := by
  induction l generalizing db with
  | nil => rfl
  | cons e l ih =>
    have hstep := learnFromDictStep_preserves db e t h
    have hnext : GetLearntValue (learnFromDictStep db e) t ≠ "" := by
      rw [hstep]
      exact h
    calc GetLearntValue (learnFromDict db (e :: l)) t
        = GetLearntValue (learnFromDict (learnFromDictStep db e) l) t := rfl
      _ = GetLearntValue (learnFromDictStep db e) t := ih _ hnext
      _ = GetLearntValue db t := hstep

theorem ReceiveLearn_reject (db : DB) (req : GenericMessage)
    (hne : req.body.proposal.v ≠ GetLearntValue db req.turnID)
    (h : GetLearntValue db req.turnID ≠ "") :
    ReceiveLearn db req =
      { db := db
        response :=
          { turnID := req.turnID, type := "learn_response"
            body :=
              { message := "Trying to learn a different value, please respect the algorithm."
                proposal := nullProposal, learnt := "" } }
        flood := none } := by
  unfold ReceiveLearn
  rw [if_pos ⟨hne, h⟩]

theorem ReceiveLearn_preserves (db : DB) (req : GenericMessage) (t : Int)
    (h : GetLearntValue db t ≠ "") :
    GetLearntValue (ReceiveLearn db req).db t = GetLearntValue db t := by
  unfold ReceiveLearn
  by_cases hr : req.body.proposal.v ≠ GetLearntValue db req.turnID ∧
      GetLearntValue db req.turnID ≠ ""
  · rw [if_pos hr]
  · rw [if_neg hr]
    by_cases hc : GetLearntValue db req.turnID = req.body.proposal.v
    · rw [if_pos hc]
      by_cases ht : t = req.turnID
      · subst ht
        rw [GetLearntValue_SetLearntValue_self]
        exact hc.symm
      · exact GetLearntValue_SetLearntValue_other db req.turnID t _ ht
    · rw [if_neg hc]
      by_cases ht : t = req.turnID
      · exfalso
        subst ht
        rcases not_and_or.mp hr with h1 | h2
        · exact hc ((not_not.mp h1).symm)
        · exact h2 h
      · exact GetLearntValue_SetLearntValue_other db req.turnID t _ ht

theorem learnAndFlood_preserves (db : DB) (m : GenericMessage) (t : Int)
    (h : GetLearntValue db t ≠ "") :
    GetLearntValue (learnAndFlood db m).db t = GetLearntValue db t := by
  unfold learnAndFlood
  by_cases hc : GetLearntValue db m.turnID = ""
  · rw [if_pos hc]
    have hne : t ≠ m.turnID := by
      intro hEq
      rw [hEq] at h
      exact h hc
    exact GetLearntValue_SetLearntValue_other db m.turnID t _ hne
  · rw [if_neg hc]

/-- **C2.** No learner-layer operation (`ReceiveLearn`, the proposer
side `learnAndFlood`, the seeker side `learnFromDict`) ever changes a
slot whose learnt value is non-empty; a learn request proposing a
different value for such a slot is rejected with no state change and no
flood. -/
theorem learnt_write_once (db : DB) (t : Int) (h : GetLearntValue db t ≠ "") :
    (∀ req : GenericMessage, GetLearntValue (ReceiveLearn db req).db t = GetLearntValue db t) ∧
    (∀ m : GenericMessage, GetLearntValue (learnAndFlood db m).db t = GetLearntValue db t) ∧
    (∀ l : List (Int × String), GetLearntValue (learnFromDict db l) t = GetLearntValue db t) ∧
    (∀ req : GenericMessage, req.turnID = t → req.body.proposal.v ≠ GetLearntValue db t →
      (ReceiveLearn db req).db = db ∧ (ReceiveLearn db req).flood = none) := by
  refine ⟨fun req => ReceiveLearn_preserves db req t h,
    fun m => learnAndFlood_preserves db m t h,
    fun l => learnFromDict_preserves l db t h,
    fun req hturn hv => ?_⟩
  have hrej := ReceiveLearn_reject db req (by rw [hturn]; exact hv) (by rw [hturn]; exact h)
  rw [hrej]
  exact ⟨rfl, rfl⟩

theorem learnt_write_once_witness :
    GetLearntValue exLearntDB 1 ≠ "" ∧
    GetLearntValue (ReceiveLearn exLearntDB (exReq 1 0 0 "z")).db 1 = "q" ∧
    (ReceiveLearn exLearntDB (exReq 1 0 0 "z")).db = exLearntDB ∧
    (ReceiveLearn exLearntDB (exReq 1 0 0 "z")).flood = none := by
  have h := learnt_write_once exLearntDB 1 (by decide)
  have hr := h.2.2.2 (exReq 1 0 0 "z") rfl (by decide)
  refine ⟨by decide, ?_, hr.1, hr.2⟩
  rw [h.1 (exReq 1 0 0 "z")]
  decide

/-- **C3 counterexample.** With `isAccept = true` but an empty value in
`P`, `SetProposal` does not overwrite the stored value: on a store
whose slot 1 holds value `"x"`, the call `SetProposal(1, (pid 2, seq 2,
v ""), true)` keeps `"x"` instead of replacing it with `P`'s (null)
value. -/
theorem setProposal_accept_empty_value_counterexample :
    (proposalRow (SetProposal exPropDB 1 { pid := 2, seq := 2, v := "" } true) 1
      = some { turn_id := 1, pid := 2, seq := 2, value := some "x" }) ∧
    ¬ (proposalRow (SetProposal exPropDB 1 { pid := 2, seq := 2, v := "" } true) 1
      = some { turn_id := 1, pid := 2, seq := 2, value := none }) := by
  decide

/-- **C3 (amended).** `SetProposal` always overwrites `pid` and `seq`.
On the prepare path a stored non-null value is kept, and `P`'s value is
written only when the stored value is null and `P`'s value non-empty.
With `isAccept = true` and a non-empty value both the number and the
value are overwritten; with `isAccept = true` and an empty value only
the number is overwritten (the stored value is left unchanged, a fresh
row getting null). -/
theorem setProposal_semantics (db : DB) (t : Int) (p : Proposal) (b : Bool) :
    ∃ r : ProposalRow,
      proposalRow (SetProposal db t p b) t = some r ∧
      r.pid = p.pid ∧ r.seq = p.seq ∧
      r.value =
        (if p.v = "" then
          (match proposalRow db t with
            | some old => old.value
            | none => none)
        else if b then some p.v
        else
          (match proposalRow db t with
            | some old =>
                (match old.value with
                  | some x => some x
                  | none => some p.v)
            | none => some p.v)) := by
  rw [proposalRow_SetProposal_self]
  rcases hrow : proposalRow db t with _ | old
  · refine ⟨setProposalNewRow t p, rfl, rfl, rfl, ?_⟩
    unfold setProposalNewRow
    by_cases hv : p.v = "" <;> cases b <;> simp [hv]
  · refine ⟨setProposalUpdateRow p b old, rfl, setProposalUpdateRow_pid p b old,
      setProposalUpdateRow_seq p b old, ?_⟩
    unfold setProposalUpdateRow
    by_cases hv : p.v = "" <;> cases b <;> simp [hv]

/-- **C8.** A `SetProposal` call whose proposal carries the empty value
never writes the empty string into the value column: an existing row
keeps its stored value unchanged and a freshly created row gets null. -/
theorem setProposal_empty_value (db : DB) (t : Int) (p : Proposal) (b : Bool)
    (h : p.v = "") :
    ∃ r : ProposalRow,
      proposalRow (SetProposal db t p b) t = some r ∧
      r.value = (match proposalRow db t with
        | some old => old.value
        | none => none) := by
  obtain ⟨r, hr, _, _, hv⟩ := setProposal_semantics db t p b
  refine ⟨r, hr, ?_⟩
  rw [hv, if_pos h]

theorem setProposal_empty_value_witness :
    ((proposalRow (SetProposal exPropDB 1 { pid := 2, seq := 2, v := "" } false) 1).map
      (fun r => r.value) = some (some "x")) ∧
    ((proposalRow (SetProposal exEmptyDB 1 { pid := 2, seq := 2, v := "" } false) 1).map
      (fun r => r.value) = some none) := by
  obtain ⟨r1, hr1, hv1⟩ :=
    setProposal_empty_value exPropDB 1 { pid := 2, seq := 2, v := "" } false rfl
  obtain ⟨r2, hr2, hv2⟩ :=
    setProposal_empty_value exEmptyDB 1 { pid := 2, seq := 2, v := "" } false rfl
  constructor
  · have hx : r1.value = some "x" := by
      rw [hv1]
      decide
    rw [hr1]
    exact congrArg some hx
  · have hx : r2.value = none := by
      rw [hv2]
      decide
    rw [hr2]
    exact congrArg some hx

/-!
## GetLastTurnID lemmas
-/

theorem init_le_foldl_max (xs : List Int) (x : Int) : x ≤ xs.foldl max x := by
  induction xs generalizing x with
  | nil => exact le_refl x
  | cons a xs ih => exact le_trans (le_max_left x a) (ih (max x a))

theorem le_foldl_max (xs : List Int) (x y : Int) (h : y = x ∨ y ∈ xs) :
    y ≤ xs.foldl max x := by
  induction xs generalizing x with
  | nil =>
    rcases h with h | h
    · exact h.le
    · simp at h
  | cons a xs ih =>
    rw [List.foldl_cons]
    rcases h with h | h
    · subst h
      exact le_trans (le_max_left y a) (init_le_foldl_max xs (max y a))
    · rcases List.mem_cons.mp h with h | h
      · subst h
        exact le_trans (le_max_right x y) (init_le_foldl_max xs (max x y))
      · exact ih (max x a) (Or.inr h)

theorem le_GetLastTurnID_of_mem (db : DB) (t : Int)
    (h : t ∈ GetLearntValuesTurnID db) : t ≤ GetLastTurnID db := by
  unfold GetLearntValuesTurnID at h
  unfold GetLastTurnID
  rcases hm : db.learntTable.map (fun r => r.turn_id) with _ | ⟨x, xs⟩
  · rw [hm] at h
    simp at h
  · rw [hm] at h
    rw [hm]
    rcases List.mem_cons.mp h with h | h
    · exact le_foldl_max xs x t (Or.inl h)
    · exact le_foldl_max xs x t (Or.inr h)

theorem SetLearntValue_append (db : DB) (t : Int) (v : String)
    (h : db.learntTable.find? (fun r => r.turn_id == t) = none) :
    (SetLearntValue db t v).learntTable
      = db.learntTable ++ [{ turn_id := t, value := v }] := by
  have hany : db.learntTable.any (fun r => r.turn_id == t) = false := by
    rw [List.any_eq_false]
    intro x hx
    have := List.find?_eq_none.mp h x hx
    simpa using this
  unfold SetLearntValue
  rw [hany]
  simp

/-- **C10.** On a slot with no learnt row, a learn request carrying the
empty string is stored: a learnt row with value `""` is inserted, no
gossip flood is spawned, and afterwards the learnt-slot set and
`GetLastTurnID` count the slot as learnt (even though the empty string
is supposed to denote "no decision known locally"). -/
theorem receive_learn_empty_value (db : DB) (req : GenericMessage)
    (h : db.learntTable.find? (fun r => r.turn_id == req.turnID) = none)
    (hv : req.body.proposal.v = "") :
    (ReceiveLearn db req).db.learntTable
      = db.learntTable ++ [{ turn_id := req.turnID, value := "" }] ∧
    (ReceiveLearn db req).flood = none ∧
    req.turnID ∈ GetLearntValuesTurnID (ReceiveLearn db req).db ∧
    req.turnID ≤ GetLastTurnID (ReceiveLearn db req).db := by
  have hcur : GetLearntValue db req.turnID = "" := by
    unfold GetLearntValue
    rw [h]
  have hdb : ReceiveLearn db req =
      { db := SetLearntValue db req.turnID req.body.proposal.v
        response :=
          { turnID := req.turnID, type := "learn_response"
            body := { message := "", proposal := nullProposal, learnt := "" } }
        flood := none } := by
    unfold ReceiveLearn
    rw [if_neg (fun hcontra => hcontra.2 hcur), if_pos (hcur.trans hv.symm)]
  have htbl : (ReceiveLearn db req).db.learntTable
      = db.learntTable ++ [{ turn_id := req.turnID, value := "" }] := by
    rw [hdb]
    dsimp only
    rw [hv]
    exact SetLearntValue_append db req.turnID "" h
  have hmem : req.turnID ∈ GetLearntValuesTurnID (ReceiveLearn db req).db := by
    unfold GetLearntValuesTurnID
    rw [htbl]
    simp
  refine ⟨htbl, by rw [hdb], hmem, le_GetLastTurnID_of_mem _ _ hmem⟩

theorem receive_learn_empty_value_witness :
    (ReceiveLearn exEmptyDB (exReq 3 0 0 "")).db.learntTable
      = [{ turn_id := 3, value := "" }] ∧
    (ReceiveLearn exEmptyDB (exReq 3 0 0 "")).flood = none ∧
    (3 : Int) ≤ GetLastTurnID (ReceiveLearn exEmptyDB (exReq 3 0 0 "")).db := by
  have h := receive_learn_empty_value exEmptyDB (exReq 3 0 0 "") rfl rfl
  exact ⟨h.1, h.2.1, h.2.2.2⟩

/-!
## Tally-abort lemmas
-/

theorem countAgreementsLoop_malformed (conf : Conf) (db : DB)
    (pre post : List RawResponse) (acc : PrepareAcc) (turnID seq : Int) (v : String)
    (hpre : ∀ r ∈ pre, r ≠ RawResponse.malformed ∧
      ∀ m, r = RawResponse.ok m → ResponseHasLearntValue m = false) :
    countAgreementsLoop conf db (pre ++ RawResponse.malformed :: post) acc turnID seq v
      = { db := db, err := true, action := ProposerAction.noAction, flood := none } := by
  induction pre generalizing acc with
  | nil => rfl
  | cons r pre ih =>
    rcases r with _ | _ | m
    · rw [List.cons_append]
      rw [countAgreementsLoop]
      exact ih acc (fun r hr => hpre r (List.mem_cons_of_mem _ hr))
    · exact absurd rfl (hpre _ (List.mem_cons_self _ _)).1
    · have hm := (hpre _ (List.mem_cons_self _ _)).2 m rfl
      rw [List.cons_append]
      rw [countAgreementsLoop]
      simp only [hm, Bool.false_eq_true, if_false]
      exact ih (prepareAccStep acc m) (fun r hr => hpre r (List.mem_cons_of_mem _ hr))

theorem countApprovalsLoop_malformed (conf : Conf) (db : DB)
    (pre post : List RawResponse) (acc : AcceptAcc) (turnID : Int) (v : String)
    (hpre : ∀ r ∈ pre, r ≠ RawResponse.malformed ∧
      ∀ m, r = RawResponse.ok m → ResponseHasLearntValue m = false) :
    countApprovalsLoop conf db (pre ++ RawResponse.malformed :: post) acc turnID v
      = { db := db, err := true, action := ProposerAction.noAction, flood := none } := by
  induction pre generalizing acc with
  | nil => rfl
  | cons r pre ih =>
    rcases r with _ | _ | m
    · rw [List.cons_append]
      rw [countApprovalsLoop]
      exact ih acc (fun r hr => hpre r (List.mem_cons_of_mem _ hr))
    · exact absurd rfl (hpre _ (List.mem_cons_self _ _)).1
    · have hm := (hpre _ (List.mem_cons_self _ _)).2 m rfl
      rw [List.cons_append]
      rw [countApprovalsLoop]
      simp only [hm, Bool.false_eq_true, if_false]
      exact ih (acceptAccStep acc m) (fun r hr => hpre r (List.mem_cons_of_mem _ hr))

/-- **C9.** When a buffered peer response fails unmarshalling before
any learnt-carrying response was seen, both tallies return the error
outcome at once: the store is untouched, no follow-up accept, learn or
retry is issued, and the remaining responses (even valid ones) are
discarded. -/
theorem tally_unmarshal_error (conf : Conf) (db : DB) (turnID seq : Int) (v : String)
    (pre post : List RawResponse)
    (hpre : ∀ r ∈ pre, r ≠ RawResponse.malformed ∧
      ∀ m, r = RawResponse.ok m → ResponseHasLearntValue m = false) :
    countAgreements conf db (pre ++ RawResponse.malformed :: post) turnID seq v
      = { db := db, err := true, action := ProposerAction.noAction, flood := none } ∧
    countApprovals conf db (pre ++ RawResponse.malformed :: post) turnID v
      = { db := db, err := true, action := ProposerAction.noAction, flood := none } :=
  ⟨countAgreementsLoop_malformed conf db pre post _ turnID seq v hpre,
   countApprovalsLoop_malformed conf db pre post _ turnID v hpre⟩
theorem tally_unmarshal_error_witness :
    countAgreements exConf exEmptyDB
        [RawResponse.ok exPromise, RawResponse.malformed, RawResponse.ok exPromise] 1 1 "x"
      = { db := exEmptyDB, err := true, action := ProposerAction.noAction, flood := none } ∧
    countApprovals exConf exEmptyDB
        [RawResponse.ok exPromise, RawResponse.malformed, RawResponse.ok exPromise] 1 "x"
      = { db := exEmptyDB, err := true, action := ProposerAction.noAction, flood := none } := by
  have h := tally_unmarshal_error exConf exEmptyDB 1 1 "x"
    [RawResponse.ok exPromise] [RawResponse.ok exPromise]
    (by
      intro r hr
      simp only [List.mem_singleton] at hr
      subst hr
      refine ⟨by simp, ?_⟩
      intro m hm
      injection hm with h2
      rw [← h2]
      decide)
  exact h

/-!
## Seek-response map lemmas
-/

theorem mapLookup_mapInsert (m : List (Int × String)) (k k2 : Int) (v : String) :
    mapLookup (mapInsert m k v) k2 = if k2 = k then some v else mapLookup m k2 := by
  by_cases hany : m.any (fun e => e.1 == k) = true
  · simp only [mapInsert, mapLookup, if_pos hany]
    rw [List.find?_map]
    by_cases hk : k2 = k
    · subst hk
      have hp : ((fun e : Int × String => e.1 == k2) ∘
          fun e => if e.1 == k2 then (k2, v) else e)
          = (fun e : Int × String => e.1 == k2) := by
        funext e
        by_cases he : e.1 = k2 <;> simp [he]
      rw [hp, if_pos rfl]
      rcases hf : m.find? (fun e => e.1 == k2) with _ | e
      · exfalso
        have hs : (m.find? (fun e => e.1 == k2)).isSome = true :=
          List.find?_isSome.mpr (by simpa using List.any_eq_true.mp hany)
        rw [hf] at hs
        simp at hs
      · rw [hf]
        have he := List.find?_some hf
        simp only [beq_iff_eq] at he
        simp [he]
    · have hp : ((fun e : Int × String => e.1 == k2) ∘
          fun e => if e.1 == k then (k, v) else e)
          = (fun e : Int × String => e.1 == k2) := by
        funext e
        by_cases he : e.1 = k <;> simp [he]
      rw [hp, if_neg hk]
      rcases hf : m.find? (fun e => e.1 == k2) with _ | e
      · rw [hf]
        rfl
      · rw [hf]
        have he := List.find?_some hf
        simp only [beq_iff_eq] at he
        have hek : ¬ e.1 = k := by omega
        simp [mapLookup, hek]
  · have hany2 : m.any (fun e => e.1 == k) = false := by
      cases hx : m.any (fun e => e.1 == k)
      · rfl
      · exact absurd hx hany
    simp only [mapInsert, mapLookup, hany2, Bool.false_eq_true, if_false]
    rw [List.find?_append]
    by_cases hk : k2 = k
    · subst hk
      have hnone : m.find? (fun e => e.1 == k2) = none := by
        rw [List.find?_eq_none]
        intro x hx
        have := List.any_eq_false.mp hany2 x hx
        simpa using this
      rw [hnone, if_pos rfl]
      simp [List.find?]
    · have hone : ([(k, v)].find? (fun e => e.1 == k2)) = none := by
        have : (k == k2) = false := by
          simp only [beq_eq_false_iff_ne, ne_eq]
          omega
        simp [List.find?, this]
      rw [hone, if_neg hk]
      cases m.find? (fun e => e.1 == k2) <;> rfl

theorem mapLookup_foldl_missing (lv : Int → String) (myLast : Int) (ms : List Int)
    (m0 : List (Int × String)) (t : Int) :
    mapLookup (ms.foldl (fun m turnID =>
        if turnID ≤ myLast ∧ lv turnID ≠ "" then mapInsert m turnID (lv turnID) else m) m0) t
      = if t ∈ ms ∧ t ≤ myLast ∧ lv t ≠ "" then some (lv t)
        else mapLookup m0 t := by
  induction ms generalizing m0 with
  | nil => simp
  | cons a ms ih =>
    rw [List.foldl_cons, ih]
    by_cases ha : a ≤ myLast ∧ lv a ≠ ""
    · rw [if_pos ha]
      by_cases ht : t = a
      · subst ht
        rw [mapLookup_mapInsert]
        by_cases hmem : t ∈ ms ∧ t ≤ myLast ∧ lv t ≠ ""
        · rw [if_pos hmem, if_pos ⟨List.mem_cons_of_mem t hmem.1, hmem.2⟩]
        · rw [if_neg hmem, if_pos rfl, if_pos ⟨List.mem_cons_self t ms, ha⟩]
      · rw [mapLookup_mapInsert, if_neg ht]
        by_cases hmem : t ∈ ms ∧ t ≤ myLast ∧ lv t ≠ ""
        · rw [if_pos hmem, if_pos ⟨List.mem_cons_of_mem a hmem.1, hmem.2⟩]
        · have hno : ¬ (t ∈ a :: ms ∧ t ≤ myLast ∧ lv t ≠ "") := by
            intro hcontra
            rcases List.mem_cons.mp hcontra.1 with h1 | h1
            · exact ht h1
            · exact hmem ⟨h1, hcontra.2⟩
          rw [if_neg hmem, if_neg hno]
    · rw [if_neg ha]
      by_cases hmem : t ∈ ms ∧ t ≤ myLast ∧ lv t ≠ ""
      · rw [if_pos hmem, if_pos ⟨List.mem_cons_of_mem a hmem.1, hmem.2⟩]
      · have hno : ¬ (t ∈ a :: ms ∧ t ≤ myLast ∧ lv t ≠ "") := by
          intro hcontra
          rcases List.mem_cons.mp hcontra.1 with h1 | h1
          · exact ha (h1 ▸ hcontra.2)
          · exact hmem ⟨h1, hcontra.2⟩
        rw [if_neg hmem, if_neg hno]

theorem mapLookup_foldl_rows (rows : List LearntWithTid) (last : Int)
    (m0 : List (Int × String)) (t : Int)
    (hnd : (rows.map (fun r => r.turnID)).Nodup) :
    mapLookup (rows.foldl
        (fun m e => if e.turnID > last then mapInsert m e.turnID e.learnt else m) m0) t
      = match rows.find? (fun e => e.turnID == t) with
        | some e => if e.turnID > last then some e.learnt else mapLookup m0 t
        | none => mapLookup m0 t := by
  induction rows generalizing m0 with
  | nil => rfl
  | cons e rows ih =>
    rw [List.map_cons, List.nodup_cons] at hnd
    rw [List.foldl_cons, ih _ hnd.2]
    by_cases ht : e.turnID = t
    · have hfr : rows.find? (fun x => x.turnID == t) = none := by
        rw [List.find?_eq_none]
        intro x hx
        simp only [beq_iff_eq]
        intro hEq
        exact hnd.1 (by rw [ht, ← hEq]; exact List.mem_map_of_mem _ hx)
      have hhead : (e :: rows).find? (fun x => x.turnID == t) = some e := by
        simp [List.find?_cons, ht]
      rw [hfr, hhead]
      have hred : (match some e with
          | some x => if x.turnID > last then some x.learnt else mapLookup m0 t
          | none => mapLookup m0 t)
          = if e.turnID > last then some e.learnt else mapLookup m0 t := rfl
      rw [hred]
      by_cases hgt : e.turnID > last
      · rw [if_pos hgt, if_pos hgt, mapLookup_mapInsert, if_pos ht.symm]
      · rw [if_neg hgt, if_neg hgt]
    · have hhead : (e :: rows).find? (fun x => x.turnID == t)
          = rows.find? (fun x => x.turnID == t) := by
        simp [List.find?_cons, ht]
      have hm0 : mapLookup (if e.turnID > last then mapInsert m0 e.turnID e.learnt else m0) t
          = mapLookup m0 t := by
        by_cases hgt : e.turnID > last
        · rw [if_pos hgt, mapLookup_mapInsert, if_neg (fun hEq => ht hEq.symm)]
        · rw [if_neg hgt]
      rw [hm0, hhead]

theorem find?_GetAllLearntValues (db : DB) (t : Int) :
    (GetAllLearntValues db).find? (fun e => e.turnID == t)
      = (db.learntTable.find? (fun r => r.turn_id == t)).map
          (fun r => ({ turnID := r.turn_id, learnt := r.value } : LearntWithTid)) := by
  unfold GetAllLearntValues
  rw [List.find?_map]
  rfl

theorem keys_GetAllLearntValues (db : DB) :
    (GetAllLearntValues db).map (fun e => e.turnID)
      = db.learntTable.map (fun r => r.turn_id) := by
  unfold GetAllLearntValues
  rw [List.map_map]
  rfl

theorem le_GetLastTurnID_of_learnt (db : DB) (t : Int)
    (h : GetLearntValue db t ≠ "") : t ≤ GetLastTurnID db := by
  unfold GetLearntValue at h
  rcases hf : db.learntTable.find? (fun r => r.turn_id == t) with _ | r
  · rw [hf] at h
    exact absurd rfl h
  · have hmem := List.mem_of_find?_eq_some hf
    have hkey : r.turn_id = t := by simpa using List.find?_some hf
    apply le_GetLastTurnID_of_mem
    unfold GetLearntValuesTurnID
    rw [← hkey]
    exact List.mem_map_of_mem _ hmem

theorem learnt_rows_key_unique (l : List LearntRow)
    (hnd : (l.map (fun r => r.turn_id)).Nodup) (r1 r2 : LearntRow)
    (h1 : r1 ∈ l) (h2 : r2 ∈ l) (hk : r1.turn_id = r2.turn_id) : r1 = r2 := by
  induction l with
  | nil => simp at h1
  | cons a l ih =>
    rw [List.map_cons, List.nodup_cons] at hnd
    rcases List.mem_cons.mp h1 with h1a | h1l <;> rcases List.mem_cons.mp h2 with h2a | h2l
    · rw [h1a, h2a]
    · exfalso
      subst h1a
      apply hnd.1
      rw [hk]
      exact List.mem_map_of_mem _ h2l
    · exfalso
      subst h2a
      apply hnd.1
      rw [← hk]
      exact List.mem_map_of_mem _ h1l
    · exact ih hnd.2 h1l h2l

theorem learnt_find?_eq_some_iff (db : DB) (t : Int) (r : LearntRow)
    (hnd : (db.learntTable.map (fun x => x.turn_id)).Nodup) :
    db.learntTable.find? (fun x => x.turn_id == t) = some r ↔
      r ∈ db.learntTable ∧ r.turn_id = t := by
  constructor
  · intro h
    exact ⟨List.mem_of_find?_eq_some h, by simpa using List.find?_some h⟩
  · rintro ⟨hmem, hkey⟩
    rcases hf : db.learntTable.find? (fun x => x.turn_id == t) with _ | r2
    · exfalso
      have := List.find?_eq_none.mp hf r hmem
      simp [hkey] at this
    · have h2 := List.mem_of_find?_eq_some hf
      have hk2 : r2.turn_id = t := by simpa using List.find?_some hf
      rw [hf]
      exact congrArg some
        (learnt_rows_key_unique db.learntTable hnd r2 r h2 hmem (by rw [hk2, hkey]))

theorem mapLookup_toLearn1 (db : DB) (last t : Int)
    (hnd : (db.learntTable.map (fun r => r.turn_id)).Nodup) :
    mapLookup (if GetLastTurnID db > last then
        (GetAllLearntValues db).foldl
          (fun m e => if e.turnID > last then mapInsert m e.turnID e.learnt else m) []
      else []) t
      = (match db.learntTable.find? (fun r => r.turn_id == t) with
          | some r => if r.turn_id > last then some r.value else none
          | none => none) := by
  by_cases hgt : GetLastTurnID db > last
  · rw [if_pos hgt]
    have hnd2 : ((GetAllLearntValues db).map (fun r => r.turnID)).Nodup := by
      rw [keys_GetAllLearntValues]
      exact hnd
    rw [mapLookup_foldl_rows (GetAllLearntValues db) last [] t hnd2]
    rw [find?_GetAllLearntValues]
    rcases hf : db.learntTable.find? (fun r => r.turn_id == t) with _ | r
    · rw [hf]
      rfl
    · rw [hf]
      rfl
  · rw [if_neg hgt]
    rcases hf : db.learntTable.find? (fun r => r.turn_id == t) with _ | r
    · rw [hf]
      rfl
    · rw [hf]
      have hmem := List.mem_of_find?_eq_some hf
      have hbound : r.turn_id ≤ GetLastTurnID db :=
        le_GetLastTurnID_of_mem db r.turn_id (List.mem_map_of_mem _ hmem)
      have hno : ¬ r.turn_id > last := by omega
      show (mapLookup [] t : Option String)
          = if r.turn_id > last then some r.value else none
      rw [if_neg hno]
      rfl

theorem mapLookup_ComputeNewValuesResponse (db : DB) (req : NewValuesRequest) (t : Int)
    (hnd : (db.learntTable.map (fun r => r.turn_id)).Nodup) :
    mapLookup (ComputeNewValuesResponse db req) t =
      if req.last ≠ 0 ∧ t ∈ req.missing ∧ t ≤ GetLastTurnID db ∧
          GetLearntValue db t ≠ "" then
        some (GetLearntValue db t)
      else
        (match db.learntTable.find? (fun r => r.turn_id == t) with
          | some r => if r.turn_id > req.last then some r.value else none
          | none => none) := by
  unfold ComputeNewValuesResponse
  by_cases h0 : req.last ≠ 0
  · rw [if_pos h0]
    rw [mapLookup_foldl_missing (GetLearntValue db) (GetLastTurnID db) req.missing _ t]
    by_cases hc : t ∈ req.missing ∧ t ≤ GetLastTurnID db ∧ GetLearntValue db t ≠ ""
    · rw [if_pos hc, if_pos ⟨h0, hc⟩]
    · have hno : ¬ (req.last ≠ 0 ∧ t ∈ req.missing ∧ t ≤ GetLastTurnID db ∧
          GetLearntValue db t ≠ "") := fun hx => hc hx.2
      rw [if_neg hc, if_neg hno]
      exact mapLookup_toLearn1 db req.last t hnd
  · have hno : ¬ (req.last ≠ 0 ∧ t ∈ req.missing ∧ t ≤ GetLastTurnID db ∧
        GetLearntValue db t ≠ "") := fun hx => h0 hx.1
    rw [if_neg h0, if_neg hno]
    exact mapLookup_toLearn1 db req.last t hnd

/-- **C7.** The seek response for `{last, missing}` contains exactly the
local learnt entries with slot strictly above `last` plus, when
`last ≠ 0`, the missing slots with a non-empty local learnt value, and
nothing else. -/
theorem compute_new_values_exact (db : DB) (req : NewValuesRequest) (t : Int) (v : String)
    (hnd : (db.learntTable.map (fun r => r.turn_id)).Nodup) :
    mapLookup (ComputeNewValuesResponse db req) t = some v ↔
      ((∃ r ∈ db.learntTable, r.turn_id = t ∧ r.value = v ∧ t > req.last) ∨
       (req.last ≠ 0 ∧ t ∈ req.missing ∧ GetLearntValue db t = v ∧ v ≠ "")) := by
  rw [mapLookup_ComputeNewValuesResponse db req t hnd]
  constructor
  · intro h
    by_cases hc : req.last ≠ 0 ∧ t ∈ req.missing ∧ t ≤ GetLastTurnID db ∧
        GetLearntValue db t ≠ ""
    · rw [if_pos hc] at h
      have hv := Option.some.inj h
      right
      refine ⟨hc.1, hc.2.1, hv, ?_⟩
      rw [← hv]
      exact hc.2.2.2
    · rw [if_neg hc] at h
      left
      rcases hf : db.learntTable.find? (fun r => r.turn_id == t) with _ | r
      · rw [hf] at h
        exact Option.noConfusion h
      · rw [hf] at h
        have h2 : (if r.turn_id > req.last then some r.value else (none : Option String))
            = some v := h
        by_cases hgt : r.turn_id > req.last
        · rw [if_pos hgt] at h2
          have hmem := List.mem_of_find?_eq_some hf
          have hkey : r.turn_id = t := by simpa using List.find?_some hf
          exact ⟨r, hmem, hkey, Option.some.inj h2, by rw [← hkey]; exact hgt⟩
        · rw [if_neg hgt] at h2
          exact Option.noConfusion h2
  · intro h
    rcases h with ⟨r, hmem, hkey, hval, hgt⟩ | ⟨h0, hmiss, hlv, hv⟩
    · have hf : db.learntTable.find? (fun x => x.turn_id == t) = some r :=
        (learnt_find?_eq_some_iff db t r hnd).mpr ⟨hmem, hkey⟩
      have hlvr : GetLearntValue db t = r.value := by
        unfold GetLearntValue
        rw [hf]
      by_cases hc : req.last ≠ 0 ∧ t ∈ req.missing ∧ t ≤ GetLastTurnID db ∧
          GetLearntValue db t ≠ ""
      · rw [if_pos hc, hlvr, hval]
      · rw [if_neg hc, hf]
        show (if r.turn_id > req.last then some r.value else (none : Option String)) = some v
        rw [if_pos (by rw [hkey]; exact hgt), hval]
    · have hle : t ≤ GetLastTurnID db :=
        le_GetLastTurnID_of_learnt db t (by rw [hlv]; exact hv)
      have hc : req.last ≠ 0 ∧ t ∈ req.missing ∧ t ≤ GetLastTurnID db ∧
          GetLearntValue db t ≠ "" := ⟨h0, hmiss, hle, by rw [hlv]; exact hv⟩
      rw [if_pos hc, hlv]


theorem compute_new_values_exact_witness :
    mapLookup (ComputeNewValuesResponse exSeekDB { missing := [1], last := 2 }) 1
      = some "a" ∧
    mapLookup (ComputeNewValuesResponse exSeekDB { missing := [1], last := 2 }) 3
      = some "b" := by
  have h1 := compute_new_values_exact exSeekDB { missing := [1], last := 2 } 1 "a" (by decide)
  have h3 := compute_new_values_exact exSeekDB { missing := [1], last := 2 } 3 "b" (by decide)
  constructor
  · exact h1.mpr (Or.inr ⟨by decide, by decide, by decide, by decide⟩)
  · exact h3.mpr
      (Or.inl ⟨{ turn_id := 3, value := "b" }, by decide, by decide, by decide, by decide⟩)

/-!
## Prepare-tally fold lemmas
-/

theorem IsGreaterThan_irrefl (p : Proposal) : p.IsGreaterThan p = false := by
  cases hg : p.IsGreaterThan p
  · rfl
  · have := (IsGreaterThan_iff p p).mp hg
    omega

theorem IsGreaterThan_trans (a b c : Proposal)
    (h1 : a.IsGreaterThan b = true) (h2 : b.IsGreaterThan c = true) :
    a.IsGreaterThan c = true := by
  rw [IsGreaterThan_iff] at h1 h2 ⊢
  omega

theorem prepareAccStep_agreements (acc : PrepareAcc) (m : GenericMessage) :
    (prepareAccStep acc m).agreements
      = acc.agreements + (if m.body.message = "promise" then 1 else 0) := by
  unfold prepareAccStep
  by_cases h : m.body.message = "promise"
  · rw [if_pos h, if_pos h]
  · rw [if_neg h, if_neg h]
    by_cases h2 : m.body.message = "retry"
    · rw [if_pos h2]
      simp
    · rw [if_neg h2]
      simp

theorem prepareAccStep_hp_cases (acc : PrepareAcc) (m : GenericMessage) :
    (prepareAccStep acc m).highestPromise = acc.highestPromise ∨
      (m.body.message = "promise" ∧ m.body.proposal.v ≠ "" ∧
       (prepareAccStep acc m).highestPromise = m.body.proposal) := by
  unfold prepareAccStep
  by_cases h : m.body.message = "promise"
  · rw [if_pos h]
    dsimp only
    by_cases hc : m.body.proposal.IsGreaterThan acc.highestPromise ∧ m.body.proposal.v ≠ ""
    · rw [if_pos hc]
      exact Or.inr ⟨h, hc.2, rfl⟩
    · rw [if_neg hc]
      exact Or.inl rfl
  · rw [if_neg h]
    by_cases h2 : m.body.message = "retry"
    · rw [if_pos h2]
      exact Or.inl rfl
    · rw [if_neg h2]
      exact Or.inl rfl

theorem prepareAccStep_hp_ge (acc : PrepareAcc) (m : GenericMessage) :
    (prepareAccStep acc m).highestPromise = acc.highestPromise ∨
      (prepareAccStep acc m).highestPromise.IsGreaterThan acc.highestPromise = true := by
  unfold prepareAccStep
  by_cases h : m.body.message = "promise"
  · rw [if_pos h]
    dsimp only
    by_cases hc : m.body.proposal.IsGreaterThan acc.highestPromise ∧ m.body.proposal.v ≠ ""
    · rw [if_pos hc]
      exact Or.inr hc.1
    · rw [if_neg hc]
      exact Or.inl rfl
  · rw [if_neg h]
    by_cases h2 : m.body.message = "retry"
    · rw [if_pos h2]
      exact Or.inl rfl
    · rw [if_neg h2]
      exact Or.inl rfl

theorem prepareAccStep_hp_notgt (acc : PrepareAcc) (m : GenericMessage)
    (hmsg : m.body.message = "promise") (hv : m.body.proposal.v ≠ "") :
    m.body.proposal.IsGreaterThan (prepareAccStep acc m).highestPromise = false := by
  unfold prepareAccStep
  rw [if_pos hmsg]
  dsimp only
  by_cases hc : m.body.proposal.IsGreaterThan acc.highestPromise ∧ m.body.proposal.v ≠ ""
  · rw [if_pos hc]
    exact IsGreaterThan_irrefl _
  · rw [if_neg hc]
    cases hg : m.body.proposal.IsGreaterThan acc.highestPromise
    · rfl
    · exact absurd ⟨hg, hv⟩ hc

theorem prepareFold_agreements (responses : List RawResponse) (acc : PrepareAcc) :
    (prepareFold acc responses).agreements = acc.agreements + promiseCount responses := by
  induction responses generalizing acc with
  | nil => simp [prepareFold, promiseCount]
  | cons r rs ih =>
    rcases r with _ | _ | m
    · show (prepareFold acc rs).agreements = acc.agreements + promiseCount (RawResponse.silent :: rs)
      rw [ih acc]
      have : promiseCount (RawResponse.silent :: rs) = promiseCount rs := by
        simp [promiseCount, List.filter_cons, isPromise]
      rw [this]
    · show (prepareFold acc rs).agreements
          = acc.agreements + promiseCount (RawResponse.malformed :: rs)
      rw [ih acc]
      have : promiseCount (RawResponse.malformed :: rs) = promiseCount rs := by
        simp [promiseCount, List.filter_cons, isPromise]
      rw [this]
    · show (prepareFold (prepareAccStep acc m) rs).agreements
          = acc.agreements + promiseCount (RawResponse.ok m :: rs)
      rw [ih (prepareAccStep acc m), prepareAccStep_agreements]
      by_cases h : m.body.message = "promise"
      · have : promiseCount (RawResponse.ok m :: rs) = 1 + promiseCount rs := by
          simp [promiseCount, List.filter_cons, isPromise, h]
          omega
        rw [this, if_pos h]
        omega
      · have : promiseCount (RawResponse.ok m :: rs) = promiseCount rs := by
          simp [promiseCount, List.filter_cons, isPromise, h]
        rw [this, if_neg h]
        omega

theorem prepareFold_hp_ge (responses : List RawResponse) (acc : PrepareAcc) :
    (prepareFold acc responses).highestPromise = acc.highestPromise ∨
      (prepareFold acc responses).highestPromise.IsGreaterThan acc.highestPromise = true := by
  induction responses generalizing acc with
  | nil => exact Or.inl rfl
  | cons r rs ih =>
    rcases r with _ | _ | m
    · exact ih acc
    · exact ih acc
    · show (prepareFold (prepareAccStep acc m) rs).highestPromise = acc.highestPromise ∨
        (prepareFold (prepareAccStep acc m) rs).highestPromise.IsGreaterThan
          acc.highestPromise = true
      rcases ih (prepareAccStep acc m) with h1 | h1 <;>
        rcases prepareAccStep_hp_ge acc m with h2 | h2
      · exact Or.inl (h1.trans h2)
      · right
        rw [h1]
        exact h2
      · right
        rw [h2] at h1
        exact h1
      · exact Or.inr (IsGreaterThan_trans _ _ _ h1 h2)

theorem prepareFold_hp_cases (responses : List RawResponse) (acc : PrepareAcc) :
    (prepareFold acc responses).highestPromise = acc.highestPromise ∨
      ∃ m : GenericMessage, RawResponse.ok m ∈ responses ∧
        m.body.message = "promise" ∧ m.body.proposal.v ≠ "" ∧
        (prepareFold acc responses).highestPromise = m.body.proposal := by
  induction responses generalizing acc with
  | nil => exact Or.inl rfl
  | cons r rs ih =>
    rcases r with _ | _ | m
    · rcases ih acc with h | ⟨m2, hmem, h1, h2, h3⟩
      · exact Or.inl h
      · exact Or.inr ⟨m2, List.mem_cons_of_mem _ hmem, h1, h2, h3⟩
    · rcases ih acc with h | ⟨m2, hmem, h1, h2, h3⟩
      · exact Or.inl h
      · exact Or.inr ⟨m2, List.mem_cons_of_mem _ hmem, h1, h2, h3⟩
    · rcases ih (prepareAccStep acc m) with h | ⟨m2, hmem, h1, h2, h3⟩
      · rcases prepareAccStep_hp_cases acc m with h2 | ⟨hmsg, hv, heq⟩
        · exact Or.inl (h.trans h2)
        · exact Or.inr ⟨m, List.mem_cons_self _ _, hmsg, hv, h.trans heq⟩
      · exact Or.inr ⟨m2, List.mem_cons_of_mem _ hmem, h1, h2, h3⟩

theorem prepareFold_hp_max (responses : List RawResponse) (acc : PrepareAcc) :
    ∀ m : GenericMessage, RawResponse.ok m ∈ responses →
      m.body.message = "promise" → m.body.proposal.v ≠ "" →
      m.body.proposal.IsGreaterThan (prepareFold acc responses).highestPromise = false := by
  induction responses generalizing acc with
  | nil =>
    intro m hm
    simp at hm
  | cons r rs ih =>
    intro m hm hmsg hv
    rcases r with _ | _ | m3
    · rcases List.mem_cons.mp hm with h | h
      · exact RawResponse.noConfusion h
      · exact ih acc m h hmsg hv
    · rcases List.mem_cons.mp hm with h | h
      · exact RawResponse.noConfusion h
      · exact ih acc m h hmsg hv
    · rcases List.mem_cons.mp hm with h | h
      · have hm3 : m = m3 := by
          injection h
        subst hm3
        have hno := prepareAccStep_hp_notgt acc m hmsg hv
        have hge := prepareFold_hp_ge rs (prepareAccStep acc m)
        cases hg : m.body.proposal.IsGreaterThan
            (prepareFold (prepareAccStep acc m) rs).highestPromise
        · exact hg
        · exfalso
          rcases hge with hge | hge
          · rw [hge] at hg
            rw [hg] at hno
            exact Bool.noConfusion hno
          · have := IsGreaterThan_trans _ _ _ hg hge
            rw [this] at hno
            exact Bool.noConfusion hno
      · exact ih (prepareAccStep acc m3) m h hmsg hv

theorem countAgreementsLoop_clean (conf : Conf) (db : DB) (responses : List RawResponse)
    (acc : PrepareAcc) (turnID seq : Int) (v : String)
    (hclean : ∀ r ∈ responses, r ≠ RawResponse.malformed ∧
      ∀ m, r = RawResponse.ok m → ResponseHasLearntValue m = false) :
    countAgreementsLoop conf db responses acc turnID seq v
      = { db := db, err := false
          action := prepareDecision conf (prepareFold acc responses) turnID seq v
          flood := none } := by
  induction responses generalizing acc with
  | nil => rfl
  | cons r rs ih =>
    rcases r with _ | _ | m
    · rw [countAgreementsLoop]
      exact ih acc (fun r hr => hclean r (List.mem_cons_of_mem _ hr))
    · exact absurd rfl (hclean _ (List.mem_cons_self _ _)).1
    · have hm := (hclean _ (List.mem_cons_self _ _)).2 m rfl
      rw [countAgreementsLoop]
      simp only [hm, Bool.false_eq_true, if_false]
      exact ih (prepareAccStep acc m) (fun r hr => hclean r (List.mem_cons_of_mem _ hr))

/-- **C4.** In a prepare tally with no unmarshalling failure and no
learnt short-circuit, whenever the promise count reaches the quorum the
accept request that follows (sent automatically, or suggested in manual
mode) carries the value of a maximal non-empty-valued promise when one
exists, otherwise the caller value when non-empty, otherwise
`V_DEFAULT`; and the broadcast accept proposal is numbered
`(seq, own pid)`. Promise proposals carrying a value are assumed
non-null, as null proposals are protocol violations the tally ignores. -/
theorem prepare_quorum_value_choice (conf : Conf) (db : DB)
    (responses : List RawResponse) (turnID seq : Int) (proposedV : String)
    (hclean : ∀ r ∈ responses, r ≠ RawResponse.malformed ∧
      ∀ m, r = RawResponse.ok m → ResponseHasLearntValue m = false)
    (hvalid : ∀ m : GenericMessage, RawResponse.ok m ∈ responses →
      m.body.message = "promise" → m.body.proposal.v ≠ "" →
      m.body.proposal.IsGreaterThan nullProposal = true)
    (hq : promiseCount responses ≥ conf.QUORUM) :
    ∃ chosenV : String,
      countAgreements conf db responses turnID seq proposedV
        = { db := db, err := false
            action := if conf.MANUAL_MODE then ProposerAction.suggestAccept turnID seq chosenV
              else ProposerAction.sendAccept turnID seq chosenV
            flood := none } ∧
      (acceptRequestMessage conf turnID seq chosenV).body.proposal
        = { pid := conf.PID, seq := seq, v := chosenV } ∧
      ((∃ m : GenericMessage, RawResponse.ok m ∈ responses ∧
          m.body.message = "promise" ∧ m.body.proposal.v = chosenV ∧ chosenV ≠ "" ∧
          (∀ m2 : GenericMessage, RawResponse.ok m2 ∈ responses →
            m2.body.message = "promise" → m2.body.proposal.v ≠ "" →
            m2.body.proposal.IsGreaterThan m.body.proposal = false)) ∨
       ((∀ m : GenericMessage, RawResponse.ok m ∈ responses →
           m.body.message = "promise" → m.body.proposal.v = "") ∧
        chosenV = (if proposedV = "" then conf.V_DEFAULT else proposedV))) := by
  set acc0 : PrepareAcc :=
    { agreements := 0, responseCount := 0
      highestPromise := nullProposal, highestRetry := nullProposal } with hacc0
  have hcA : countAgreements conf db responses turnID seq proposedV
      = { db := db, err := false
          action := prepareDecision conf (prepareFold acc0 responses) turnID seq proposedV
          flood := none } :=
    countAgreementsLoop_clean conf db responses acc0 turnID seq proposedV hclean
  have hag : (prepareFold acc0 responses).agreements ≥ conf.QUORUM := by
    rw [prepareFold_agreements, hacc0]
    dsimp only
    omega
  have hdec : prepareDecision conf (prepareFold acc0 responses) turnID seq proposedV
      = (if conf.MANUAL_MODE then
          ProposerAction.suggestAccept turnID seq
            (if (prepareFold acc0 responses).highestPromise.v = "" then
              (if proposedV = "" then conf.V_DEFAULT else proposedV)
            else (prepareFold acc0 responses).highestPromise.v)
        else ProposerAction.sendAccept turnID seq
            (if (prepareFold acc0 responses).highestPromise.v = "" then
              (if proposedV = "" then conf.V_DEFAULT else proposedV)
            else (prepareFold acc0 responses).highestPromise.v)) := by
    unfold prepareDecision
    rw [if_pos hag]
    cases hM : conf.MANUAL_MODE <;> simp [hM]
  refine ⟨(if (prepareFold acc0 responses).highestPromise.v = "" then
      (if proposedV = "" then conf.V_DEFAULT else proposedV)
    else (prepareFold acc0 responses).highestPromise.v), ?_, rfl, ?_⟩
  · rw [hcA, hdec]
  · by_cases hv : (prepareFold acc0 responses).highestPromise.v = ""
    · right
      constructor
      · intro m hm hmsg
        by_contra hmv
        have hmax := prepareFold_hp_max responses acc0 m hm hmsg hmv
        have hnull : (prepareFold acc0 responses).highestPromise = nullProposal := by
          rcases prepareFold_hp_cases responses acc0 with h | ⟨m2, _, _, hv2, heq⟩
          · rw [h, hacc0]
          · exfalso
            rw [heq] at hv
            exact hv2 hv
        have hgtnull := hvalid m hm hmsg hmv
        rw [hnull] at hmax
        rw [hmax] at hgtnull
        exact Bool.noConfusion hgtnull
      · rw [if_pos hv]
    · left
      rcases prepareFold_hp_cases responses acc0 with h | ⟨m, hmem, hmsg, hval, heq⟩
      · exfalso
        apply hv
        rw [h, hacc0]
        rfl
      · refine ⟨m, hmem, hmsg, ?_, ?_, ?_⟩
        · rw [if_neg hv, heq]
        · rw [if_neg hv]
          exact hv
        · intro m2 hm2 hmsg2 hv2
          have hmax := prepareFold_hp_max responses acc0 m2 hm2 hmsg2 hv2
          rw [heq] at hmax
          exact hmax

theorem prepare_quorum_value_choice_witness :
    countAgreements exConf exEmptyDB
        [RawResponse.ok exPromise, RawResponse.ok exPromise] 1 5 ""
      = { db := exEmptyDB, err := false
          action := ProposerAction.sendAccept 1 5 "d", flood := none } := by
  obtain ⟨chosenV, hact, _, hcase⟩ := prepare_quorum_value_choice exConf exEmptyDB
    [RawResponse.ok exPromise, RawResponse.ok exPromise] 1 5 ""
    (by
      intro r hr
      simp at hr
      subst hr
      refine ⟨by simp, ?_⟩
      intro m hm
      injection hm with h2
      rw [← h2]
      decide)
    (by
      intro m hm hmsg hmv
      simp at hm
      subst hm
      exact absurd rfl hmv)
    (by decide)
  rcases hcase with ⟨m, hm, _, hval, hne, _⟩ | ⟨_, hch⟩
  · exfalso
    simp at hm
    subst hm
    exact hne hval.symm
  · rw [if_pos rfl] at hch
    rw [hch] at hact
    rw [hact]
    simp [exConf]

end GoPaxos
